import Mathlib

/-!
Shallow embedding of the concurrency core of the devtoolkit repository
(concurrency.go, concurrent_manager.go, concurrent_worker.go, and the
AtomicNumber helper), together with theorems settling the claims about it.

Machine integers are modelled as unbounded Int (no overflow occurs in the
claims' ranges); the float64 growth rate is modelled by its exact rational
value, with the Go conversion int(f) modelled as truncation toward zero;
goroutine scheduling is modelled by quantifying over the order in which
workers run; channel send and receive on the semaphore channels are
modelled by an item counter, with a blocked operation leaving the state
unchanged or reported as a blocked outcome.
-/

set_option maxHeartbeats 1000000

namespace Devtoolkit

/-- Model of a Go value of static type any, as classified by the
reflect-based presence test in executorWorker: the nil interface value,
a value of non-pointer kind, a nil pointer, or a non-nil pointer.
Payloads are coded as naturals. -/
inductive GoValue where
  | nilInterface : GoValue
  | nonPtrVal : Nat → GoValue
  | ptrNil : GoValue
  | ptrVal : Nat → GoValue
deriving DecidableEq, Repr

/-- Mirrors reflect.ValueOf(result).Kind() == reflect.Ptr. -/
def GoValue.isPtrKind : GoValue → Bool
  | .ptrNil => true
  | .ptrVal _ => true
  | _ => false

/-- Mirrors val.IsNil() on a value of pointer kind. -/
def GoValue.ptrIsNil : GoValue → Bool
  | .ptrNil => true
  | _ => false

/-- A Go error value: none models a nil error, some n a non-nil error. -/
abbrev GoErrV := Option Nat

/-- The outcome of one ConcurrentFn when it is run: the result value and
the error it returns. Each submitted function is determinized by the
value/error pair it produces. -/
structure ConcurrentFn where
  val : GoValue
  err : GoErrV
deriving DecidableEq, Repr

/-- The three error values ExecuteFns can return. -/
inductive CEErr where
  | alreadyRunning : CEErr
  | nilContext : CEErr
  | nilEmpty : CEErr
deriving DecidableEq, Repr

/-- State of a ConcurrentExec instance: the running flag, the results and
errs slices, whether a derived cancellable context exists, and whether it
has been cancelled. The mutex only makes the flag transitions atomic and
is not part of the sequential state. -/
structure ConcurrentExec where
  running : Bool
  results : List GoValue
  errs : List GoErrV
  hasCtx : Bool
  ctxCanceled : Bool
deriving DecidableEq, Repr

/-- blockExecution: under the mutex, fail if running, else set running. -/
def ConcurrentExec.blockExecution (ce : ConcurrentExec) : Option CEErr × ConcurrentExec :=
  if ce.running then (some .alreadyRunning, ce)
  else (none, { ce with running := true })

/-- unblockExecution: under the mutex, clear running and cancel the
derived context. -/
def ConcurrentExec.unblockExecution (ce : ConcurrentExec) : ConcurrentExec :=
  { ce with running := false, ctxCanceled := true }

/-- init: allocate zero-valued errs and results slices of length totalFns
and derive a fresh cancellable context from ctx. -/
def ConcurrentExec.init (ce : ConcurrentExec) (totalFns : Nat) : ConcurrentExec :=
  { ce with
    errs := List.replicate totalFns none
    results := List.replicate totalFns GoValue.nilInterface
    hasCtx := true
    ctxCanceled := false }

/-- executeFns: take the single-flight lock, then initialize the batch;
the returned Nat is the number of workers spawned. -/
def ConcurrentExec.executeFns (ce : ConcurrentExec) (fns : List ConcurrentFn) :
    Option CEErr × ConcurrentExec × Nat :=
  match ce.blockExecution with
  | (some e, ce') => (some e, ce', 0)
  | (none, ce') => (none, ce'.init fns.length, fns.length)

/-- The caller-supplied context: none models a nil context. -/
abbrev Ctx := Option Unit

/-- What ExecuteFns returns: whether the response interface is non-nil,
the error, the instance state after the call, and the number of workers
spawned by the call. -/
structure ExecRet where
  resp : Bool
  err : Option CEErr
  state : ConcurrentExec
  spawned : Nat
deriving DecidableEq, Repr

/-- ExecuteFns: nil-context check, then nil-or-empty check (a nil fns
slice and an empty one both have length zero and are modelled by the
empty list), then executeFns. -/
def ConcurrentExec.ExecuteFns (ce : ConcurrentExec) (ctx : Ctx) (fns : List ConcurrentFn) :
    ExecRet :=
  if ctx = none then ⟨false, some .nilContext, ce, 0⟩
  else if fns = [] then ⟨false, some .nilEmpty, ce, 0⟩
  else
    match ce.executeFns fns with
    | (some e, ce', _) => ⟨false, some e, ce', 0⟩
    | (none, ce', n) => ⟨true, none, ce', n⟩

/-- executorWorker: store the error at pos; store the result at pos if it
is of non-pointer kind, and also if it is a non-nil pointer (the two
conditional stores of the source, in order). -/
def ConcurrentExec.executorWorker (ce : ConcurrentExec) (pos : Nat) (fn : ConcurrentFn) :
    ConcurrentExec :=
  let ce1 := { ce with errs := ce.errs.set pos fn.err }
  let ce2 :=
    if fn.val.isPtrKind = false then { ce1 with results := ce1.results.set pos fn.val }
    else ce1
  if fn.val.isPtrKind && !fn.val.ptrIsNil then { ce2 with results := ce2.results.set pos fn.val }
  else ce2

/-- Default function outcome used for out-of-range indexing. -/
def defaultFn : ConcurrentFn := ⟨GoValue.nilInterface, none⟩

/-- Run the spawned workers in the completion order chosen by the
scheduler: order lists the worker indices in the order their effects
land. -/
def runWorkers (fns : List ConcurrentFn) (order : List Nat) (ce : ConcurrentExec) :
    ConcurrentExec :=
  order.foldl (fun st i => st.executorWorker i (fns.getD i defaultFn)) ce

/-- Results: wait for all workers, tear down, return the results slice. -/
def ConcurrentExec.Results (ce : ConcurrentExec) : List GoValue × ConcurrentExec :=
  (ce.results, ce.unblockExecution)

/-- Errors: wait for all workers, tear down, return the errs slice. -/
def ConcurrentExec.Errors (ce : ConcurrentExec) : List GoErrV × ConcurrentExec :=
  (ce.errs, ce.unblockExecution)

/-- CancelExecution: tear down (cancelling the derived context), then
wait for the workers to return. -/
def ConcurrentExec.CancelExecution (ce : ConcurrentExec) : ConcurrentExec :=
  ce.unblockExecution

/-- Done: the returned channel is closed after the workers finish and the
instance is torn down; the model keeps the state at that point. -/
def ConcurrentExec.Done (ce : ConcurrentExec) : ConcurrentExec :=
  ce.unblockExecution

/-! ### AtomicNumber (instantiated at Int, matching allocated's element type) -/

/-- AtomicNumber: a mutex-protected numeric cell; the mutex only makes
each method atomic and is not part of the sequential state. -/
structure AtomicNumber where
  value : Int
deriving DecidableEq, Repr

/-- DecrementIf: decrement by 1 when the condition holds on the current
value; report whether the decrement took place. -/
def AtomicNumber.DecrementIf (a : AtomicNumber) (cond : Int → Bool) : AtomicNumber × Bool :=
  if cond a.value then (⟨a.value - 1⟩, true) else (a, false)

/-- The release condition used by ConcurrentManager.Release. -/
def releaseCondFn : Int → Bool := fun value => value > 0

/-! ### ConcurrentManager -/

/-- Go's int(f) conversion on the exact value of a float64: truncation
toward zero, computed as the truncated division of the numerator by the
denominator. -/
def goInt (q : ℚ) : Int := q.num.tdiv q.den

/-- State of a ConcurrentManager. The workers channel (capacity chanCap,
currently holding chanLen items) is modelled by its item count: a send
increments chanLen (blocking when chanLen = chanCap), a receive
decrements it. wgCount models the WaitGroup counter. timeIncreasePeriod
is in nanoseconds (Go time.Duration). -/
structure ConcurrentManager where
  min : Int
  max : Int
  prevMax : Int
  currentMax : Int
  allocated : AtomicNumber
  workerIncreaseRate : ℚ
  timeIncreasePeriod : Int
  chanCap : Int
  chanLen : Int
  wgCount : Int
deriving DecidableEq, Repr

/-- init: reset the ceiling to min and replace the workers channel with a
fresh one of capacity max pre-loaded with max - min tokens (Go's
for-range over a non-positive count performs zero sends). -/
def ConcurrentManager.init (c : ConcurrentManager) : ConcurrentManager :=
  { c with
    prevMax := c.min
    currentMax := c.min
    chanCap := c.max
    chanLen := if 0 ≤ c.max - c.min then c.max - c.min else 0 }

/-- NewConcurrentManager: the parameter normalization of the constructor,
followed by init. Note the source checks minWorkers == 0, not
minWorkers < 1. One second is 1000000000 nanoseconds. -/
def NewConcurrentManager (minWorkers maxWorkers : Int) (workerIncreaseRate : ℚ)
    (timeIncreasePeriod : Int) : ConcurrentManager :=
  let minW := if minWorkers = 0 then 1 else minWorkers
  let maxW := if minW > maxWorkers then minW else maxWorkers
  let rate := if workerIncreaseRate ≤ 1 then (3 : ℚ) / 2 else workerIncreaseRate
  let period := if timeIncreasePeriod < 1 then 1000000000 else timeIncreasePeriod
  ConcurrentManager.init
    { min := minW, max := maxW, prevMax := 0, currentMax := 0
      allocated := ⟨0⟩, workerIncreaseRate := rate, timeIncreasePeriod := period
      chanCap := 0, chanLen := 0, wgCount := 0 }

/-- Allocate: send one token into the workers channel (a send on a full
channel blocks, modelled as leaving the state unchanged while the caller
waits), then wg.Add(1) and increment allocated. The lazy once-start of
the growth ticker has no effect on this state. -/
def ConcurrentManager.Allocate (c : ConcurrentManager) : ConcurrentManager :=
  if c.chanLen < c.chanCap then
    { c with
      chanLen := c.chanLen + 1
      wgCount := c.wgCount + 1
      allocated := ⟨c.allocated.value + 1⟩ }
  else c

/-- Release: DecrementIf on allocated with releaseCondFn; only when the
decrement took place, receive one token from the workers channel and
wg.Done(). -/
def ConcurrentManager.Release (c : ConcurrentManager) : ConcurrentManager :=
  match c.allocated.DecrementIf releaseCondFn with
  | (a', true) => { c with allocated := a', chanLen := c.chanLen - 1, wgCount := c.wgCount - 1 }
  | (_, false) => c

/-- calculateNewMax: no growth when the ceiling is at max; otherwise
record prevMax, multiply the ceiling by the rate, convert back with Go's
int conversion, and clamp to max. -/
def ConcurrentManager.calculateNewMax (c : ConcurrentManager) : Bool × ConcurrentManager :=
  if c.currentMax = c.max then (false, c)
  else
    let c1 := { c with prevMax := c.currentMax }
    let c2 := { c1 with currentMax := goInt ((c1.currentMax : ℚ) * c1.workerIncreaseRate) }
    if c2.currentMax > c2.max then (true, { c2 with currentMax := c2.max })
    else (true, c2)

/-- One iteration of the tickToIncrease loop body: none when
calculateNewMax reports the ceiling is at max and the loop exits;
otherwise receive delta = currentMax - prevMax tokens from the workers
channel (the for loop performs no receives when delta is not positive). -/
def ConcurrentManager.tickToIncreaseStep (c : ConcurrentManager) : Option ConcurrentManager :=
  match c.calculateNewMax with
  | (false, _) => none
  | (true, c') =>
    let delta := c'.currentMax - c'.prevMax
    some { c' with chanLen := c'.chanLen - (if 0 < delta then delta else 0) }

/-- Iterate the ticker body n times (stopping early when the loop
exits). -/
def tickN : Nat → ConcurrentManager → ConcurrentManager
  | 0, c => c
  | n + 1, c =>
    match c.tickToIncreaseStep with
    | none => c
    | some c' => tickN n c'

/-- An Allocate or Release call, for reasoning about call sequences. -/
inductive CMOp where
  | alloc : CMOp
  | release : CMOp
deriving DecidableEq, Repr

/-- Apply one call to the manager state. -/
def ConcurrentManager.applyOp (c : ConcurrentManager) : CMOp → ConcurrentManager
  | .alloc => c.Allocate
  | .release => c.Release

/-- Apply a sequence of Allocate/Release calls in order. -/
def ConcurrentManager.runOps (c : ConcurrentManager) (ops : List CMOp) : ConcurrentManager :=
  ops.foldl ConcurrentManager.applyOp c

/-! ### ConcurrentWorkers -/

/-- State of a ConcurrentWorkers launcher: the fixed capacity, the
one-shot closed flag and closeOnce guard, the recorded error, the
semaphore channel item count, the WaitGroup counter, and whether the
mutex mu is currently held. -/
structure ConcurrentWorkers where
  maxWorkers : Int
  closed : Bool
  closeDone : Bool
  errVal : Option Nat
  chanLen : Int
  wgCount : Int
  muHeld : Bool
deriving DecidableEq, Repr

/-- NewConcurrentWorkers: empty semaphore channel of capacity maxWorkers,
open, no error, mutex free. -/
def NewConcurrentWorkers (maxWorkers : Int) : ConcurrentWorkers :=
  { maxWorkers := maxWorkers, closed := false, closeDone := false, errVal := none
    chanLen := 0, wgCount := 0, muHeld := false }

/-- What an Execute call does: it returns (having launched the unit of
work or not), or it is blocked on the semaphore send. -/
inductive ExecOutcome where
  | returned : ConcurrentWorkers → Bool → ExecOutcome
  | blockedOnSend : ConcurrentWorkers → ExecOutcome
deriving DecidableEq, Repr

/-- The launcher state at the end of (or during) the Execute call. -/
def ExecOutcome.state : ExecOutcome → ConcurrentWorkers
  | .returned s _ => s
  | .blockedOnSend s => s

/-- Whether the Execute call returned. -/
def ExecOutcome.didReturn : ExecOutcome → Bool
  | .returned _ _ => true
  | .blockedOnSend _ => false

/-- Whether the Execute call launched the unit of work. -/
def ExecOutcome.launched : ExecOutcome → Bool
  | .returned _ b => b
  | .blockedOnSend _ => false

/-- Execute: mu.Lock(); if closed, return (no unlock); otherwise send one
token into the semaphore channel (blocking while it is full, the mutex
still held), mu.Unlock(), wg.Add(1), and launch the unit of work on its
own goroutine. Requires the mutex to be free on entry (Lock would block
otherwise). -/
def ConcurrentWorkers.Execute (cw : ConcurrentWorkers) : ExecOutcome :=
  let s1 := { cw with muHeld := true }
  if s1.closed then .returned s1 false
  else if s1.chanLen < s1.maxWorkers then
    .returned { s1 with chanLen := s1.chanLen + 1, muHeld := false, wgCount := s1.wgCount + 1 }
      true
  else .blockedOnSend s1

/-- close: under the closeOnce guard, record the error, set closed, and
close the semaphore channel (channel closure itself not modelled). -/
def ConcurrentWorkers.close (cw : ConcurrentWorkers) (err : Option Nat) : ConcurrentWorkers :=
  if cw.closeDone then cw
  else { cw with errVal := err, closed := true, closeDone := true }

/-- Number of slots currently allocatable: the free capacity of the
workers channel (a send, and hence an Allocate, succeeds without
blocking exactly when this is positive). -/
def ConcurrentManager.allocatableSlots (c : ConcurrentManager) : Int := c.chanCap - c.chanLen

/-! ### Lemmas about the ConcurrentManager model -/

lemma goInt_eq_floor (q : ℚ) (h : 0 ≤ q) : goInt q = Int.floor q := by
  rw [Rat.floor_def]
  exact Int.tdiv_eq_ediv (Rat.num_nonneg.mpr h) (Int.natCast_nonneg q.den)

lemma calculateNewMax_at_max (c : ConcurrentManager) (h : c.currentMax = c.max) :
    c.calculateNewMax = (false, c) := by
  unfold ConcurrentManager.calculateNewMax
  rw [if_pos h]

lemma calculateNewMax_ne_max (c : ConcurrentManager) (h : c.currentMax ≠ c.max) :
    c.calculateNewMax =
      (true,
        { c with
          prevMax := c.currentMax
          currentMax := min c.max (goInt ((c.currentMax : ℚ) * c.workerIncreaseRate)) }) := by
  unfold ConcurrentManager.calculateNewMax
  rw [if_neg h]
  by_cases hgt : goInt ((c.currentMax : ℚ) * c.workerIncreaseRate) > c.max
  · rw [if_pos hgt, min_eq_left hgt.le]
  · rw [if_neg hgt, min_eq_right (not_lt.mp hgt)]

lemma tickToIncreaseStep_at_max (c : ConcurrentManager) (h : c.currentMax = c.max) :
    c.tickToIncreaseStep = none := by
  unfold ConcurrentManager.tickToIncreaseStep
  rw [calculateNewMax_at_max c h]

lemma Release_pos (c : ConcurrentManager) (h : 0 < c.allocated.value) :
    c.Release =
      { c with
        allocated := ⟨c.allocated.value - 1⟩
        chanLen := c.chanLen - 1
        wgCount := c.wgCount - 1 } := by
  unfold ConcurrentManager.Release AtomicNumber.DecrementIf releaseCondFn
  simp [h]

lemma Release_nonpos (c : ConcurrentManager) (h : c.allocated.value ≤ 0) : c.Release = c := by
  unfold ConcurrentManager.Release AtomicNumber.DecrementIf releaseCondFn
  simp [not_lt.mpr h]

lemma runOps_invariant (ops : List CMOp) (c : ConcurrentManager)
    (h0 : 0 ≤ c.allocated.value) :
    0 ≤ (c.runOps ops).allocated.value ∧
      (c.runOps ops).chanLen - (c.runOps ops).allocated.value =
        c.chanLen - c.allocated.value := by
  induction ops generalizing c with
  | nil => exact ⟨h0, rfl⟩
  | cons op rest ih =>
    have hstep : 0 ≤ (c.applyOp op).allocated.value ∧
        (c.applyOp op).chanLen - (c.applyOp op).allocated.value =
          c.chanLen - c.allocated.value := by
      cases op with
      | alloc =>
        unfold ConcurrentManager.applyOp ConcurrentManager.Allocate
        by_cases hc : c.chanLen < c.chanCap
        · rw [if_pos hc]; constructor
          · dsimp only; linarith
          · dsimp only; ring
        · rw [if_neg hc]; exact ⟨h0, rfl⟩
      | release =>
        by_cases hp : 0 < c.allocated.value
        · rw [ConcurrentManager.applyOp, Release_pos c hp]; constructor
          · dsimp only; linarith
          · dsimp only; ring
        · rw [ConcurrentManager.applyOp, Release_nonpos c (not_lt.mp hp)]
          exact ⟨h0, rfl⟩
    have hrest := ih (c.applyOp op) hstep.1
    refine ⟨hrest.1, ?_⟩
    calc (ConcurrentManager.runOps (c.applyOp op) rest).chanLen -
          (ConcurrentManager.runOps (c.applyOp op) rest).allocated.value
        = (c.applyOp op).chanLen - (c.applyOp op).allocated.value := hrest.2
      _ = c.chanLen - c.allocated.value := hstep.2

lemma floor_mul_rate_ge (c : ConcurrentManager) (hcur : 1 ≤ c.currentMax)
    (hrate : 1 ≤ c.workerIncreaseRate) :
    c.currentMax ≤ Int.floor ((c.currentMax : ℚ) * c.workerIncreaseRate) := by
  rw [Int.le_floor]
  have hc : (0 : ℚ) ≤ (c.currentMax : ℚ) := by exact_mod_cast le_trans zero_le_one hcur
  calc ((c.currentMax : ℤ) : ℚ) = (c.currentMax : ℚ) := by norm_cast
    _ ≤ (c.currentMax : ℚ) * c.workerIncreaseRate := le_mul_of_one_le_right hc hrate

lemma mul_rate_nonneg (c : ConcurrentManager) (hcur : 1 ≤ c.currentMax)
    (hrate : 1 ≤ c.workerIncreaseRate) :
    (0 : ℚ) ≤ (c.currentMax : ℚ) * c.workerIncreaseRate := by
  have hc : (0 : ℚ) ≤ (c.currentMax : ℚ) := by exact_mod_cast le_trans zero_le_one hcur
  exact mul_nonneg hc (le_trans zero_le_one hrate)

/-- C4: for every ConcurrentManager with 1 ≤ currentMax (together with
the data-model invariants currentMax ≤ max and 1 ≤ growthRate maintained
by the constructor and by every growth step), a growth step computes the
new ceiling as min(max, floor(currentMax * growthRate)), where the Go int
conversion (truncation toward zero, modelled by goInt) agrees with floor
on this nonnegative product; when currentMax = max the step reports no
growth and leaves the state unchanged; otherwise prevMax is set to the
old currentMax and the tick loop makes exactly newCeiling - prevMax
additional slots allocatable. -/
theorem calculateNewMax_growth_step (c : ConcurrentManager)
    (hcur : 1 ≤ c.currentMax) (hcm : c.currentMax ≤ c.max)
    (hrate : 1 ≤ c.workerIncreaseRate) :
    (c.currentMax = c.max →
      c.calculateNewMax = (false, c) ∧ c.tickToIncreaseStep = none) ∧
    (c.currentMax ≠ c.max →
      c.calculateNewMax.1 = true ∧
      c.calculateNewMax.2.prevMax = c.currentMax ∧
      c.calculateNewMax.2.currentMax =
        min c.max (Int.floor ((c.currentMax : ℚ) * c.workerIncreaseRate)) ∧
      goInt ((c.currentMax : ℚ) * c.workerIncreaseRate) =
        Int.floor ((c.currentMax : ℚ) * c.workerIncreaseRate) ∧
      ∀ c' : ConcurrentManager, c.tickToIncreaseStep = some c' →
        c'.allocatableSlots = c.allocatableSlots + (c'.currentMax - c'.prevMax)) := by
  constructor
  · intro h
    exact ⟨calculateNewMax_at_max c h, tickToIncreaseStep_at_max c h⟩
  · intro h
    have hfl := goInt_eq_floor _ (mul_rate_nonneg c hcur hrate)
    have hcalc := calculateNewMax_ne_max c h
    have hge : c.currentMax ≤
        min c.max (goInt ((c.currentMax : ℚ) * c.workerIncreaseRate)) :=
      le_min hcm (hfl ▸ floor_mul_rate_ge c hcur hrate)
    refine ⟨by rw [hcalc], by rw [hcalc], by rw [hcalc]; dsimp only; rw [hfl], hfl, ?_⟩
    intro c' hc'
    unfold ConcurrentManager.tickToIncreaseStep at hc'
    rw [hcalc] at hc'
    dsimp only at hc'
    set nm := min c.max (goInt ((c.currentMax : ℚ) * c.workerIncreaseRate)) with hnm
    injection hc' with hc'
    subst hc'
    unfold ConcurrentManager.allocatableSlots
    dsimp only
    have hd : 0 ≤ nm - c.currentMax := sub_nonneg.mpr hge
    by_cases hpos : 0 < nm - c.currentMax
    · rw [if_pos hpos]; ring
    · rw [if_neg hpos]
      have : nm - c.currentMax = 0 := le_antisymm (not_lt.mp hpos) hd
      rw [this]; ring

lemma tickToIncreaseStep_stuck (c : ConcurrentManager) (h1 : c.currentMax = 1)
    (hmax : 1 < c.max) (hr1 : 1 < c.workerIncreaseRate)
    (hr2 : c.workerIncreaseRate < 2) :
    c.tickToIncreaseStep = some { c with prevMax := 1, currentMax := 1 } := by
  have hne : c.currentMax ≠ c.max := by rw [h1]; exact ne_of_lt hmax
  have hgo : goInt ((c.currentMax : ℚ) * c.workerIncreaseRate) = 1 := by
    rw [h1]
    have h0 : (0 : ℚ) ≤ (1 : Int) * c.workerIncreaseRate := by
      rw [Int.cast_one, one_mul]; linarith
    rw [goInt_eq_floor _ h0, Int.cast_one, one_mul]
    rw [Int.floor_eq_iff]
    constructor
    · exact_mod_cast hr1.le
    · push_cast; linarith
  have hcalc := calculateNewMax_ne_max c hne
  rw [hgo, min_eq_right hmax.le, h1] at hcalc
  unfold ConcurrentManager.tickToIncreaseStep
  rw [hcalc]
  dsimp only
  norm_num

/-- C9: for every ConcurrentManager whose currentMax is 1 and whose
growth rate is strictly between 1 and 2 (which includes the constructor
defaults min = 1, growthRate = 1.5) and whose max exceeds 1 (so that a
growth step is attempted at all), calculateNewMax returns true yet
leaves currentMax at 1, because the Go int conversion truncates
1 * rate back to 1 — and iterating the ticker any number of times never
raises the ceiling in that session. -/
theorem ceiling_stuck_at_one (c : ConcurrentManager) (h1 : c.currentMax = 1)
    (hmax : 1 < c.max) (hr1 : 1 < c.workerIncreaseRate)
    (hr2 : c.workerIncreaseRate < 2) :
    c.calculateNewMax.1 = true ∧ c.calculateNewMax.2.currentMax = 1 ∧
      ∀ n : Nat, (tickN n c).currentMax = 1 := by
  have hne : c.currentMax ≠ c.max := by rw [h1]; exact ne_of_lt hmax
  have hgo : goInt ((c.currentMax : ℚ) * c.workerIncreaseRate) = 1 := by
    rw [h1]
    have h0 : (0 : ℚ) ≤ (1 : Int) * c.workerIncreaseRate := by
      rw [Int.cast_one, one_mul]; linarith
    rw [goInt_eq_floor _ h0, Int.cast_one, one_mul]
    rw [Int.floor_eq_iff]
    constructor
    · exact_mod_cast hr1.le
    · push_cast; linarith
  have hcalc := calculateNewMax_ne_max c hne
  rw [hgo, min_eq_right hmax.le] at hcalc
  refine ⟨by rw [hcalc], by rw [hcalc], ?_⟩
  have main : ∀ n : Nat, ∀ d : ConcurrentManager, d.currentMax = 1 → 1 < d.max →
      1 < d.workerIncreaseRate → d.workerIncreaseRate < 2 →
      (tickN n d).currentMax = 1 := by
    intro n
    induction n with
    | zero => intro d hd _ _ _; exact hd
    | succ n ih =>
      intro d hd hdmax hdr1 hdr2
      rw [tickN, tickToIncreaseStep_stuck d hd hdmax hdr1 hdr2]
      exact ih _ rfl hdmax hdr1 hdr2
  exact fun n => main n c h1 hmax hr1 hr2

/-- C5: the constructor normalization is incomplete — at the failing
input minWorkers = -1, maxWorkers = 0, growthRate = 2, period = 1s, the
source's minWorkers == 0 check (instead of minWorkers < 1) lets the
negative value through, so the resulting manager violates min ≥ 1,
contradicting the documented guarantee that invalid inputs are corrected
(and making init try to send max - min = 1 token into a zero-capacity
channel). -/
theorem NewConcurrentManager_negative_min :
    (NewConcurrentManager (-1) 0 2 1000000000).min = -1 ∧
      ¬ 1 ≤ (NewConcurrentManager (-1) 0 2 1000000000).min := by decide

/-- C7: Release decrements the allocated counter only when it is
strictly positive, and only then removes one token from the workers
channel and marks one unit of work done; along every sequence of
Allocate/Release calls the counter stays nonnegative and the channel
item count minus the counter is invariant, so excess Release calls are
silent no-ops that do not over-release tokens. -/
theorem Release_underflow_guard (c0 : ConcurrentManager) (ops : List CMOp)
    (h0 : 0 ≤ c0.allocated.value) :
    (∀ c : ConcurrentManager, c.allocated.value ≤ 0 → c.Release = c) ∧
    (∀ c : ConcurrentManager, 0 < c.allocated.value →
      c.Release.allocated.value = c.allocated.value - 1 ∧
      c.Release.chanLen = c.chanLen - 1 ∧ c.Release.wgCount = c.wgCount - 1) ∧
    0 ≤ (c0.runOps ops).allocated.value ∧
    (c0.runOps ops).chanLen - (c0.runOps ops).allocated.value =
      c0.chanLen - c0.allocated.value ∧
    c0.chanLen - c0.allocated.value ≤ (c0.runOps ops).chanLen := by
  have hinv := runOps_invariant ops c0 h0
  refine ⟨fun c hc => Release_nonpos c hc, fun c hc => ?_, hinv.1, hinv.2,
    by linarith [hinv.1, hinv.2]⟩
  rw [Release_pos c hc]
  exact ⟨rfl, rfl, rfl⟩

/-- A concrete constructed manager (min 2, max 8, rate 1.5) used by
witnesses. -/
def cmW : ConcurrentManager := NewConcurrentManager 2 8 (3 / 2) 0

/-- A concrete constructed manager with the defaulted min 1 and rate 1.5
used by witnesses. -/
def cm1 : ConcurrentManager := NewConcurrentManager 1 8 (3 / 2) 0

theorem calculateNewMax_growth_step_witness :
    (1 ≤ cmW.currentMax ∧ cmW.currentMax ≤ cmW.max ∧ 1 ≤ cmW.workerIncreaseRate) ∧
      cmW.calculateNewMax.1 = true ∧
      cmW.calculateNewMax.2.prevMax = cmW.currentMax ∧
      cmW.calculateNewMax.2.currentMax =
        min cmW.max (Int.floor ((cmW.currentMax : ℚ) * cmW.workerIncreaseRate)) := by
  have hrate : 1 ≤ cmW.workerIncreaseRate := by
    norm_num [cmW, NewConcurrentManager, ConcurrentManager.init]
  have h := calculateNewMax_growth_step cmW (by decide) (by decide) hrate
  have h2 := h.2 (by decide)
  exact ⟨⟨by decide, by decide, hrate⟩, h2.1, h2.2.1, h2.2.2.1⟩

theorem ceiling_stuck_at_one_witness :
    (cm1.currentMax = 1 ∧ 1 < cm1.max ∧ 1 < cm1.workerIncreaseRate ∧
        cm1.workerIncreaseRate < 2) ∧
      cm1.calculateNewMax.1 = true ∧ cm1.calculateNewMax.2.currentMax = 1 ∧
      (tickN 5 cm1).currentMax = 1 := by
  have hr1 : 1 < cm1.workerIncreaseRate := by
    norm_num [cm1, NewConcurrentManager, ConcurrentManager.init]
  have hr2 : cm1.workerIncreaseRate < 2 := by
    norm_num [cm1, NewConcurrentManager, ConcurrentManager.init]
  have h := ceiling_stuck_at_one cm1 (by decide) (by decide) hr1 hr2
  exact ⟨⟨by decide, by decide, hr1, hr2⟩, h.1, h.2.1, h.2.2 5⟩

theorem Release_underflow_guard_witness :
    0 ≤ cmW.allocated.value ∧
      0 ≤ ((cmW.runOps [CMOp.release, CMOp.alloc, CMOp.release,
        CMOp.release]).allocated.value) ∧
      (cmW.runOps [CMOp.release, CMOp.alloc, CMOp.release, CMOp.release]).chanLen -
          (cmW.runOps [CMOp.release, CMOp.alloc, CMOp.release,
            CMOp.release]).allocated.value =
        cmW.chanLen - cmW.allocated.value := by
  have h := Release_underflow_guard cmW
    [CMOp.release, CMOp.alloc, CMOp.release, CMOp.release] (by decide)
  exact ⟨by decide, h.2.2.1, h.2.2.2.1⟩

/-! ### Lemmas about the ConcurrentExec model -/

lemma getD_set_ne {α : Type} (l : List α) (j i : Nat) (a d : α) (h : j ≠ i) :
    (l.set j a).getD i d = l.getD i d := by
  simp [List.getD_eq_getElem?_getD, List.getElem?_set_ne h]

lemma getD_set_self {α : Type} (l : List α) (i : Nat) (a d : α) (h : i < l.length) :
    (l.set i a).getD i d = a := by
  simp [List.getD_eq_getElem?_getD, List.getElem?_set_eq_of_lt a h]

lemma getD_replicate {α : Type} (n i : Nat) (a d : α) (h : i < n) :
    (List.replicate n a).getD i d = a := by
  simp [List.getD_eq_getElem?_getD, List.getElem?_replicate, h]

lemma executorWorker_errs (ce : ConcurrentExec) (pos : Nat) (fn : ConcurrentFn) :
    (ce.executorWorker pos fn).errs = ce.errs.set pos fn.err := by
  obtain ⟨v, e⟩ := fn
  cases v <;> rfl

lemma executorWorker_results (ce : ConcurrentExec) (pos : Nat) (fn : ConcurrentFn) :
    (ce.executorWorker pos fn).results =
      if fn.val.isPtrKind && fn.val.ptrIsNil then ce.results
      else ce.results.set pos fn.val := by
  obtain ⟨v, e⟩ := fn
  cases v <;> rfl

lemma executorWorker_errs_length (ce : ConcurrentExec) (pos : Nat) (fn : ConcurrentFn) :
    (ce.executorWorker pos fn).errs.length = ce.errs.length := by
  rw [executorWorker_errs]; simp

lemma executorWorker_results_length (ce : ConcurrentExec) (pos : Nat) (fn : ConcurrentFn) :
    (ce.executorWorker pos fn).results.length = ce.results.length := by
  rw [executorWorker_results]; split <;> simp

lemma executorWorker_errs_getD_ne (ce : ConcurrentExec) (pos : Nat) (fn : ConcurrentFn)
    (i : Nat) (h : pos ≠ i) :
    (ce.executorWorker pos fn).errs.getD i none = ce.errs.getD i none := by
  rw [executorWorker_errs]
  exact getD_set_ne _ _ _ _ _ h

lemma executorWorker_results_getD_ne (ce : ConcurrentExec) (pos : Nat) (fn : ConcurrentFn)
    (i : Nat) (h : pos ≠ i) :
    (ce.executorWorker pos fn).results.getD i GoValue.nilInterface =
      ce.results.getD i GoValue.nilInterface := by
  rw [executorWorker_results]
  split
  · rfl
  · exact getD_set_ne _ _ _ _ _ h

lemma runWorkers_nil (fns : List ConcurrentFn) (ce : ConcurrentExec) :
    runWorkers fns [] ce = ce := rfl

lemma runWorkers_cons (fns : List ConcurrentFn) (j : Nat) (order : List Nat)
    (ce : ConcurrentExec) :
    runWorkers fns (j :: order) ce =
      runWorkers fns order (ce.executorWorker j (fns.getD j defaultFn)) := rfl

lemma runWorkers_errs_getD_not_mem (fns : List ConcurrentFn) (order : List Nat) :
    ∀ (ce : ConcurrentExec) (i : Nat), i ∉ order →
      (runWorkers fns order ce).errs.getD i none = ce.errs.getD i none := by
  induction order with
  | nil => intro ce i _; rfl
  | cons j rest ih =>
    intro ce i hi
    rw [runWorkers_cons, ih _ i (fun hm => hi (List.mem_cons_of_mem j hm))]
    exact executorWorker_errs_getD_ne ce j _ i (fun hji => hi (hji ▸ List.mem_cons_self j rest))

lemma runWorkers_results_getD_not_mem (fns : List ConcurrentFn) (order : List Nat) :
    ∀ (ce : ConcurrentExec) (i : Nat), i ∉ order →
      (runWorkers fns order ce).results.getD i GoValue.nilInterface =
        ce.results.getD i GoValue.nilInterface := by
  induction order with
  | nil => intro ce i _; rfl
  | cons j rest ih =>
    intro ce i hi
    rw [runWorkers_cons, ih _ i (fun hm => hi (List.mem_cons_of_mem j hm))]
    exact executorWorker_results_getD_ne ce j _ i
      (fun hji => hi (hji ▸ List.mem_cons_self j rest))

lemma runWorkers_getD_main (fns : List ConcurrentFn) (order : List Nat) :
    ∀ (ce : ConcurrentExec) (i : Nat), i ∈ order → order.Nodup →
      ce.errs.length = fns.length → ce.results.length = fns.length →
      ce.results.getD i GoValue.nilInterface = GoValue.nilInterface →
      i < fns.length →
      (runWorkers fns order ce).errs.getD i none = (fns.getD i defaultFn).err ∧
        (runWorkers fns order ce).results.getD i GoValue.nilInterface =
          (if (fns.getD i defaultFn).val.isPtrKind && (fns.getD i defaultFn).val.ptrIsNil
            then GoValue.nilInterface else (fns.getD i defaultFn).val) := by
  induction order with
  | nil => intro ce i hmem; cases hmem
  | cons j rest ih =>
    intro ce i hmem hnd hle hlr hzero hi
    rw [runWorkers_cons]
    by_cases hji : j = i
    · subst hji
      have hnotin : j ∉ rest := (List.nodup_cons.mp hnd).1
      constructor
      · rw [runWorkers_errs_getD_not_mem fns rest _ j hnotin, executorWorker_errs]
        exact getD_set_self _ _ _ _ (by rw [hle]; exact hi)
      · rw [runWorkers_results_getD_not_mem fns rest _ j hnotin, executorWorker_results]
        by_cases hcond : ((fns.getD j defaultFn).val.isPtrKind &&
            (fns.getD j defaultFn).val.ptrIsNil) = true
        · rw [if_pos hcond, if_pos hcond]
          exact hzero
        · rw [if_neg hcond, if_neg hcond]
          exact getD_set_self _ _ _ _ (by rw [hlr]; exact hi)
    · have hmem' : i ∈ rest := by
        rcases List.mem_cons.mp hmem with h | h
        · exact absurd h.symm hji
        · exact h
      refine ih _ i hmem' (List.nodup_cons.mp hnd).2 ?_ ?_ ?_ hi
      · rw [executorWorker_errs_length, hle]
      · rw [executorWorker_results_length, hlr]
      · rw [executorWorker_results_getD_ne ce j _ i hji]
        exact hzero

lemma ExecuteFns_success (ce : ConcurrentExec) (fns : List ConcurrentFn)
    (hrun : ce.running = false) (hne : fns ≠ []) :
    ce.ExecuteFns (some ()) fns =
      ⟨true, none,
        { running := true
          results := List.replicate fns.length GoValue.nilInterface
          errs := List.replicate fns.length none
          hasCtx := true
          ctxCanceled := false },
        fns.length⟩ := by
  unfold ConcurrentExec.ExecuteFns ConcurrentExec.executeFns ConcurrentExec.blockExecution
    ConcurrentExec.init
  simp [hrun, hne]

/-- C1: for every batch successfully started by ExecuteFns (non-nil
context, non-empty fns, instance not already running) and for every
completion order of the workers (any permutation of the worker indices),
the slice returned by Errors holds fns[i]'s error at index i and the
slice returned by Results holds fns[i]'s result at index i when that
result is present (its zero value when the result is an absent nil
pointer) — index alignment is independent of completion order. -/
theorem fanout_index_alignment (ce : ConcurrentExec) (fns : List ConcurrentFn)
    (order : List Nat) (i : Nat) (hrun : ce.running = false)
    (hperm : order.Perm (List.range fns.length)) (hi : i < fns.length) :
    ((runWorkers fns order (ce.ExecuteFns (some ()) fns).state).Errors).1.getD i none =
      (fns.getD i defaultFn).err ∧
    ((runWorkers fns order (ce.ExecuteFns (some ()) fns).state).Results).1.getD i
        GoValue.nilInterface =
      (if (fns.getD i defaultFn).val.isPtrKind && (fns.getD i defaultFn).val.ptrIsNil
        then GoValue.nilInterface else (fns.getD i defaultFn).val) := by
  have hne : fns ≠ [] := by
    intro h
    rw [h] at hi
    exact absurd hi (by simp)
  rw [ExecuteFns_success ce fns hrun hne]
  have hmem : i ∈ order := hperm.mem_iff.mpr (List.mem_range.mpr hi)
  have hnd : order.Nodup := hperm.nodup_iff.mpr (List.nodup_range _)
  exact runWorkers_getD_main fns order _ i hmem hnd (by simp) (by simp)
    (getD_replicate _ _ _ _ hi) hi

/-- A concrete idle ConcurrentExec instance (the zero value) used by
witnesses and counterexamples. -/
def ce0 : ConcurrentExec :=
  { running := false, results := [], errs := [], hasCtx := false, ctxCanceled := false }

/-- A concrete batch used by the C1 witness: worker 0 returns a non-nil
pointer and no error, worker 1 returns a nil pointer and an error. -/
def fnsW : List ConcurrentFn := [⟨GoValue.ptrVal 7, none⟩, ⟨GoValue.ptrNil, some 3⟩]

theorem fanout_index_alignment_witness :
    ce0.running = false ∧ List.Perm [1, 0] (List.range fnsW.length) ∧ 1 < fnsW.length ∧
      (((runWorkers fnsW [1, 0] (ce0.ExecuteFns (some ()) fnsW).state).Errors).1.getD 1
          none = (fnsW.getD 1 defaultFn).err ∧
        ((runWorkers fnsW [1, 0] (ce0.ExecuteFns (some ()) fnsW).state).Results).1.getD 1
            GoValue.nilInterface =
          (if (fnsW.getD 1 defaultFn).val.isPtrKind && (fnsW.getD 1 defaultFn).val.ptrIsNil
            then GoValue.nilInterface else (fnsW.getD 1 defaultFn).val)) :=
  ⟨rfl, by decide, by decide,
    fanout_index_alignment ce0 fnsW [1, 0] 1 rfl (by decide) (by decide)⟩

/-- C2: with valid arguments (a non-nil context and a non-empty batch),
calling ExecuteFns while the previous batch is still in flight (running)
returns the already-running error, a nil response, starts no worker and
leaves the state unchanged; each of Results, Errors, CancelExecution and
Done clears running; and on any instance with running cleared,
ExecuteFns with valid arguments succeeds, spawning one worker per
function. -/
theorem single_flight (ce : ConcurrentExec) (fns : List ConcurrentFn) (hfns : fns ≠ []) :
    (ce.running = true →
      ce.ExecuteFns (some ()) fns = ⟨false, some CEErr.alreadyRunning, ce, 0⟩) ∧
    (ce.Results).2.running = false ∧ (ce.Errors).2.running = false ∧
    (ce.CancelExecution).running = false ∧ (ce.Done).running = false ∧
    (∀ ce' : ConcurrentExec, ce'.running = false →
      (ce'.ExecuteFns (some ()) fns).err = none ∧
      (ce'.ExecuteFns (some ()) fns).resp = true ∧
      (ce'.ExecuteFns (some ()) fns).spawned = fns.length ∧
      (ce'.ExecuteFns (some ()) fns).state.running = true) := by
  refine ⟨?_, rfl, rfl, rfl, rfl, ?_⟩
  · intro hrun
    unfold ConcurrentExec.ExecuteFns ConcurrentExec.executeFns ConcurrentExec.blockExecution
    simp [hrun, hfns]
  · intro ce' hrun'
    rw [ExecuteFns_success ce' fns hrun' hfns]
    exact ⟨rfl, rfl, rfl, rfl⟩

/-- A concrete ConcurrentExec instance with a batch in flight, used by
the C2 witness. -/
def ceR : ConcurrentExec :=
  { running := true, results := [GoValue.nilInterface], errs := [none], hasCtx := true
    ctxCanceled := false }

theorem single_flight_witness :
    fnsW ≠ [] ∧
      ceR.ExecuteFns (some ()) fnsW = ⟨false, some CEErr.alreadyRunning, ceR, 0⟩ ∧
      (ceR.Results).2.running = false ∧
      ((ceR.Results).2.ExecuteFns (some ()) fnsW).err = none := by
  have h := single_flight ceR fnsW (by decide)
  exact ⟨by decide, h.1 rfl, h.2.1, (h.2.2.2.2.2 (ceR.Results).2 h.2.1).1⟩

/-- C3 as stated is refuted at the input ctx = nil, fns empty: the code
checks the context first and returns the nil-context error, although fns
has length zero, so the nil-or-empty error is not returned "exactly
when fns is nil or has length zero". -/
theorem ExecuteFns_error_precedence_counterexample :
    (ce0.ExecuteFns none []).err = some CEErr.nilContext ∧
      (ce0.ExecuteFns none []).err ≠ some CEErr.nilEmpty := by decide

/-- C3 amended: ExecuteFns returns the nil-context error exactly when
ctx is nil; it returns the nil-or-empty error exactly when ctx is
non-nil and fns is nil or empty (the nil-context check runs first); it
returns the already-running error exactly when the arguments are valid
and the instance is running; and in every error case it returns a nil
response, starts no worker and leaves the instance state unchanged (no
slot allocation, no derived context). -/
theorem ExecuteFns_arg_errors (ce : ConcurrentExec) (ctx : Ctx) (fns : List ConcurrentFn) :
    ((ce.ExecuteFns ctx fns).err = some CEErr.nilContext ↔ ctx = none) ∧
    ((ce.ExecuteFns ctx fns).err = some CEErr.nilEmpty ↔ ctx ≠ none ∧ fns = []) ∧
    ((ce.ExecuteFns ctx fns).err = some CEErr.alreadyRunning ↔
      ctx ≠ none ∧ fns ≠ [] ∧ ce.running = true) ∧
    ∀ e : CEErr, (ce.ExecuteFns ctx fns).err = some e →
      (ce.ExecuteFns ctx fns).resp = false ∧ (ce.ExecuteFns ctx fns).state = ce ∧
        (ce.ExecuteFns ctx fns).spawned = 0 := by
  unfold ConcurrentExec.ExecuteFns ConcurrentExec.executeFns ConcurrentExec.blockExecution
  rcases ctx with _ | u
  · simp
  · by_cases hf : fns = []
    · simp [hf]
    · by_cases hr : ce.running = true
      · simp [hf, hr]
      · simp [hf, hr, ConcurrentExec.init]

theorem ExecuteFns_arg_errors_witness :
    (ce0.ExecuteFns (some ()) []).err = some CEErr.nilEmpty ∧
      (ce0.ExecuteFns (some ()) []).state = ce0 ∧
      (ce0.ExecuteFns (some ()) []).spawned = 0 := by
  have h := ExecuteFns_arg_errors ce0 (some ()) []
  have he : (ce0.ExecuteFns (some ()) []).err = some CEErr.nilEmpty :=
    h.2.1.mpr ⟨by decide, rfl⟩
  exact ⟨he, (h.2.2.2 CEErr.nilEmpty he).2.1, (h.2.2.2 CEErr.nilEmpty he).2.2⟩

/-- C6: the worker stores its result into its slot exactly when the
result is present — a value of pointer kind that is nil leaves the slot
untouched (at its zero value), while the nil interface value, every
value of non-pointer kind, and every non-nil pointer value is stored;
being a nil pointer is exactly the ptrNil case of the value model. -/
theorem executorWorker_result_presence (ce : ConcurrentExec) (pos : Nat)
    (fn : ConcurrentFn) :
    ((fn.val.isPtrKind && fn.val.ptrIsNil) = true ↔ fn.val = GoValue.ptrNil) ∧
    (ce.executorWorker pos fn).results =
      (if fn.val.isPtrKind && fn.val.ptrIsNil then ce.results
        else ce.results.set pos fn.val) := by
  constructor
  · obtain ⟨v, e⟩ := fn
    cases v <;> simp [GoValue.isPtrKind, GoValue.ptrIsNil]
  · exact executorWorker_results ce pos fn

/-- C8: Execute on a closed launcher returns (there is no error to
return), does not launch the unit of work, does not acquire a semaphore
token, does not touch the in-flight counter, and leaves the recorded
error and the closed flag as they were. -/
theorem Execute_closed_drops (cw : ConcurrentWorkers) (h : cw.closed = true) :
    (cw.Execute).didReturn = true ∧ (cw.Execute).launched = false ∧
    (cw.Execute).state.chanLen = cw.chanLen ∧ (cw.Execute).state.wgCount = cw.wgCount ∧
    (cw.Execute).state.errVal = cw.errVal ∧ (cw.Execute).state.closed = true := by
  unfold ConcurrentWorkers.Execute
  simp [h, ExecOutcome.didReturn, ExecOutcome.launched, ExecOutcome.state]

/-- A concrete closed launcher used by witnesses. -/
def cwClosed : ConcurrentWorkers :=
  { maxWorkers := 2, closed := true, closeDone := true, errVal := none, chanLen := 0
    wgCount := 0, muHeld := false }

theorem Execute_closed_drops_witness :
    cwClosed.closed = true ∧ (cwClosed.Execute).launched = false ∧
      (cwClosed.Execute).state.chanLen = cwClosed.chanLen := by
  have h := Execute_closed_drops cwClosed rfl
  exact ⟨rfl, h.2.1, h.2.2.1⟩

/-- C10: starting from a free mutex, the closed path of Execute returns
with the mutex still held (the unlock statement is only reached on the
not-closed path, where the call returns with the mutex released). -/
theorem Execute_closed_leaves_mutex_held (cw : ConcurrentWorkers)
    (_hmu : cw.muHeld = false) :
    (cw.closed = true →
      (cw.Execute).didReturn = true ∧ (cw.Execute).state.muHeld = true) ∧
    (cw.closed = false → cw.chanLen < cw.maxWorkers →
      (cw.Execute).didReturn = true ∧ (cw.Execute).state.muHeld = false) := by
  unfold ConcurrentWorkers.Execute
  constructor
  · intro h
    simp [h, ExecOutcome.didReturn, ExecOutcome.state]
  · intro h hlt
    simp [h, hlt, ExecOutcome.didReturn, ExecOutcome.state]

theorem Execute_closed_leaves_mutex_held_witness :
    cwClosed.muHeld = false ∧ cwClosed.closed = true ∧
      (cwClosed.Execute).state.muHeld = true := by
  have h := Execute_closed_leaves_mutex_held cwClosed rfl
  exact ⟨rfl, rfl, (h.1 rfl).2⟩

end Devtoolkit
